import Mathlib

set_option maxHeartbeats 1000000

namespace Neo

/-- Error raised by the intanutil sample decoder (load_intan_rhd_format.RHDError). -/
structure RHDError where
  msg : String
deriving DecidableEq, Repr

/-- Python-level errors that can escape RHDIO.read_segment: a re-raised decoder
error, a missing dict key (KeyError), an unbound local variable (NameError), or
an out-of-range list index (IndexError). -/
inductive PyErr where
  | rhd : RHDError → PyErr
  | keyError : String → PyErr
  | nameError : String → PyErr
  | indexError : Nat → PyErr
deriving DecidableEq, Repr

/-- Reading a Python dict, modelled as an insertion-ordered association list:
the first binding of the key, if any. -/
def dictGet {α : Type} (d : List (String × α)) (k : String) : Option α :=
  (d.find? (fun p => p.1 == k)).map (fun p => p.2)

/-- Python dict assignment d[k] = v: overwrite the binding in place when the
key is present (a Python dict holds each key at most once), otherwise append
a new binding at the end. -/
def dictSet {α : Type} : List (String × α) → String → α → List (String × α)
  | [], k, v => [(k, v)]
  | p :: rest, k, v =>
    if p.1 == k then (k, v) :: rest else p :: dictSet rest k v

/-- One channel descriptor from the RHD header, keeping the two fields
read_segment uses (native_order and native_channel_name). -/
structure Channel where
  native_order : Nat
  native_channel_name : String
deriving DecidableEq, Repr

/-- The RHD header fields consumed by RHDIO.read_segment.  Header decoding
itself lives in intanutil.read_header, outside this repository's src; the
num_... counts are the header-declared group sizes that read_segment tests
before processing a group. -/
structure Header where
  frequency_parameters : List (String × Rat)
  notes : List (String × String)
  amplifier_channels : List Channel
  board_adc_channels : List Channel
  aux_input_channels : List Channel
  board_dig_in_channels : List Channel
  num_board_adc_channels : Nat
  num_aux_input_channels : Nat
  num_board_dig_in_channels : Nat
deriving DecidableEq, Repr

/-- The decoded sample arrays returned by load_intan_rhd_format.read_data,
as consumed by read_segment: one matrix per analog group (rows = channels),
one bit vector per digital-input channel, and the frequency-parameter dict
that read_segment reads the digital sampling rate from. -/
structure Data where
  amplifier_data : List (List Rat)
  board_adc_data : List (List Rat)
  aux_input_data : List (List Rat)
  board_dig_in_data : List (List Bool)
  frequency_parameters : List (String × Rat)
deriving DecidableEq, Repr

/-- A value stored in a segment annotation mapping: a frequency parameter
(numeric) or a header note (text). -/
inductive AnnValue where
  | ratV : Rat → AnnValue
  | strV : String → AnnValue
deriving DecidableEq, Repr

/-- The physical unit attached to an analog signal group. -/
inductive SignalUnits where
  | microvolt : SignalUnits
  | volt : SignalUnits
deriving DecidableEq, Repr

/-- Modelled from the spec: the host framework's AnalogSignal container
(neo.core, not under src) stores the constructor arguments read_segment
passes it. -/
structure AnalogSignal where
  name : String
  units : SignalUnits
  t_start : Rat
  sampling_rate : Rat
  data : List (List Rat)
  file_origin : String
deriving DecidableEq, Repr

/-- Modelled from the spec: the host framework's Event container (neo.core,
not under src) stores the constructor arguments read_segment passes it. -/
structure Event where
  times : List Rat
  name : String
  channel_ids : Nat
  channel_names : String
  file_origin : String
  sampling_rate : Rat
deriving DecidableEq, Repr

/-- Modelled from the spec: the host framework's ChannelIndex container
(neo.core, not under src) stores the constructor arguments read_segment
passes it. -/
structure ChannelIndex where
  name : String
  index : List Nat
  channel_names : List String
  channel_details : List Channel
deriving DecidableEq, Repr

/-- Modelled from the spec: the host framework's Segment container (neo.core,
not under src); per the collaborator contract its annotate call stores an
arbitrary string-keyed mapping, and it owns the signals and events appended
to it. -/
structure Segment where
  name : String
  file_origin : String
  annotations : List (String × AnnValue)
  analogsignals : List AnalogSignal
  events : List Event
deriving DecidableEq, Repr

/-- Modelled from the spec: the host framework's Block container (neo.core,
not under src); read_segment appends ChannelIndex objects to it and
read_block appends the segment. -/
structure Block where
  name : String
  file_origin : String
  channel_indexes : List ChannelIndex
  segments : List Segment
deriving DecidableEq, Repr

/-- The os.path.basename call restricted to forward-slash paths: the
characters after the last slash. -/
def basename (s : String) : String :=
  (s.data.foldl (fun acc c => if c = '/' then [] else acc ++ [c]) []).asString

/-- Python str.endswith: the suffix's characters are a suffix of the
string's characters. -/
def pyEndsWith (s suffix : String) : Bool :=
  List.isSuffixOf suffix.data s.data

/-- The segment annotation dict built at the top of read_segment: every
frequency-parameter pair whose key does not end in "sample_rate", after which
every header note is assigned on top (dict assignment, so a note overwrites a
frequency-parameter entry with the same key). -/
def segment_annotations (h : Header) : List (String × AnnValue) :=
  let fps := (h.frequency_parameters.filter
      (fun p => !(pyEndsWith p.1 "sample_rate"))).map
      (fun p => (p.1, AnnValue.ratV p.2))
  h.notes.foldl (fun acc p => dictSet acc p.1 (AnnValue.strV p.2)) fps

/-- Indices of the nonzero samples of a digital-input bit vector
(np.nonzero(digital_signal)[0]). -/
def nonzero (v : List Bool) : List Nat :=
  (List.range v.length).filter (fun i => v.getD i false)

/-- The event times read_segment computes for one digital-input channel:
every nonzero sample index divided by the digital sampling rate. -/
def eventTimes (rate : Rat) (v : List Bool) : List Rat :=
  (nonzero v).map (fun i : Nat => (i : Rat) / rate)

/-- Whether sample i of a digital-input bit vector is a rising edge in the
spec's sense: the bit is 1 there and was 0 at the previous sample (a leading 1
at index 0 counts as a transition from the implicit low level). -/
def isRisingEdge (v : List Bool) (i : Nat) : Bool :=
  v.getD i false && (i == 0 || !(v.getD (i - 1) false))

/-- The rising-edge sample indices of a digital-input bit vector, as the spec
defines digital events. -/
def risingEdges (v : List Bool) : List Nat :=
  (List.range v.length).filter (isRisingEdge v)

/-- The ChannelIndex read_segment builds for a channel group: index and
channel_names are the per-channel native orders and native names, and
channel_details keeps the descriptor list itself. -/
def mkChannelIndex (nm : String) (chs : List Channel) : ChannelIndex :=
  { name := nm
    index := chs.map (fun c => c.native_order)
    channel_names := chs.map (fun c => c.native_channel_name)
    channel_details := chs }

/-- The digital-input loop of read_segment, starting at channel slot ii:
for each bit vector, compute the nonzero-sample times; skip the channel when
there are none; otherwise look up the channel descriptor (an out-of-range
slot is an IndexError) and emit one Event. -/
def buildDigEvents (filename : String) (chs : List Channel) (rate : Rat) :
    Nat → List (List Bool) → Except PyErr (List Event)
  | _, [] => .ok []
  | ii, v :: rest =>
    let times := eventTimes rate v
    if times.length < 1 then
      buildDigEvents filename chs rate (ii + 1) rest
    else
      match chs.get? ii with
      | none => .error (.indexError ii)
      | some ch =>
        match buildDigEvents filename chs rate (ii + 1) rest with
        | .error e => .error e
        | .ok evs =>
          .ok ({ times := times
                 name := "Digital Input Events " ++ toString ch.native_order
                 channel_ids := ch.native_order
                 channel_names := ch.native_channel_name
                 file_origin := filename
                 sampling_rate := rate } :: evs)

/-- Line 112-117 of rhdio.py: when lazy is False the decoder runs and an
RHDError is printed and re-raised; when lazy is True the local variable data
is never bound (modelled as none). -/
def getData (lazy : Bool) (decode : Except RHDError Data) : Except PyErr (Option Data) :=
  if lazy = false then
    match decode with
    | .ok d => .ok (some d)
    | .error e => .error (.rhd e)
  else
    .ok none

/-- The signal matrix used for an analog group: the decoded matrix transposed
when data is bound, np.array([]) in the lazy branch. -/
def sigData (dataOpt : Option Data) (fld : Data → List (List Rat)) : List (List Rat) :=
  match dataOpt with
  | some d => (fld d).transpose
  | none => []

/-- Reading one key of the header frequency-parameter dict; a missing key is
a Python KeyError. -/
def getFreqH (h : Header) (k : String) : Except PyErr Rat :=
  match dictGet h.frequency_parameters k with
  | some r => .ok r
  | none => .error (.keyError k)

/-- One analog channel-group section of read_segment: look up the group's
sampling rate in the header frequency parameters, then build the
AnalogSignal and the ChannelIndex for the group. -/
def sectionFor (filename : String) (h : Header) (dataOpt : Option Data)
    (signame chxname : String) (u : SignalUnits) (chs : List Channel)
    (rateKey : String) (fld : Data → List (List Rat)) :
    Except PyErr (AnalogSignal × ChannelIndex) :=
  match getFreqH h rateKey with
  | .error e => .error e
  | .ok rate =>
    .ok ({ name := signame
           units := u
           t_start := 0
           sampling_rate := rate
           data := sigData dataOpt fld
           file_origin := filename },
         mkChannelIndex chxname chs)

/-- A conditionally present analog section: its signal and channel index when
the header-declared channel count makes read_segment enter the group's if
block, nothing otherwise. -/
def optSection (cond : Prop) [Decidable cond] (s : Except PyErr (AnalogSignal × ChannelIndex)) :
    Except PyErr (List AnalogSignal × List ChannelIndex) :=
  if cond then
    match s with
    | .error e => .error e
    | .ok p => .ok ([p.1], [p.2])
  else
    .ok ([], [])

/-- The three analog sections of read_segment in source order: the mandatory
amplifier group, then the ADC and aux groups when their header-declared
channel counts are positive.  Returns the signals appended to the segment and
the channel indexes appended to the block, in order. -/
def analogSections (filename : String) (h : Header) (dataOpt : Option Data) :
    Except PyErr (List AnalogSignal × List ChannelIndex) :=
  match sectionFor filename h dataOpt "Amplifier" "Amplifier" .microvolt
      h.amplifier_channels "amplifier_sample_rate" Data.amplifier_data with
  | .error e => .error e
  | .ok amp =>
    match optSection (0 < h.num_board_adc_channels)
        (sectionFor filename h dataOpt "Board ADC" "ADC" .volt
          h.board_adc_channels "board_adc_sample_rate" Data.board_adc_data) with
    | .error e => .error e
    | .ok adc =>
      match optSection (0 < h.num_aux_input_channels)
          (sectionFor filename h dataOpt "AUX Input" "AuxData" .volt
            h.aux_input_channels "aux_input_sample_rate" Data.aux_input_data) with
      | .error e => .error e
      | .ok aux =>
        .ok (amp.1 :: (adc.1 ++ aux.1), amp.2 :: (adc.2 ++ aux.2))

/-- The storeDIG=True digital work of read_segment once data is bound: read
the digital sampling rate from the data dict, build the EventData
ChannelIndex, and run the per-channel event loop. -/
def digStore (filename : String) (h : Header) (d : Data) :
    Except PyErr (List ChannelIndex × List Event) :=
  match dictGet d.frequency_parameters "board_dig_in_sample_rate" with
  | none => .error (.keyError "board_dig_in_sample_rate")
  | some rate =>
    match buildDigEvents filename h.board_dig_in_channels rate 0
        d.board_dig_in_data with
    | .error e => .error e
    | .ok evs =>
      .ok ([mkChannelIndex "EventData" h.board_dig_in_channels], evs)

/-- The digital-input section of read_segment (lines 200-229): nothing when
the header declares no digital-input channels; with storeDIG=False only a
console message is printed; otherwise an unbound data local raises the
Python NameError and the storeDIG work runs. -/
def digSection (filename : String) (h : Header) (storeDIG : Bool)
    (dataOpt : Option Data) : Except PyErr (List ChannelIndex × List Event) :=
  if 0 < h.num_board_dig_in_channels then
    if storeDIG then
      match dataOpt with
      | none => .error (.nameError "data")
      | some d => digStore filename h d
    else
      .ok ([], [])
  else
    .ok ([], [])

/-- The cascading body of read_segment after the metadata-only early return:
the analog sections, then the digital section, then the final del data
statement, which raises NameError when lazy mode left data unbound. -/
def readSegmentBody (filename : String) (h : Header) (storeDIG : Bool)
    (dataOpt : Option Data) :
    Except PyErr (List AnalogSignal × List ChannelIndex × List Event) :=
  match analogSections filename h dataOpt with
  | .error e => .error e
  | .ok sc =>
    match digSection filename h storeDIG dataOpt with
    | .error e => .error e
    | .ok de =>
      match dataOpt with
      | some _ => .ok (sc.1, sc.2 ++ de.1, de.2)
      | none => .error (.nameError "data")

/-- RHDIO.read_segment: annotate a fresh Segment from the header, return it
as-is when cascade is False, otherwise run the decoder (unless lazy) and the
assembly body, and return the segment holding the signals and events together
with the block extended by the channel indexes. -/
def read_segment (filename : String) (h : Header) (decode : Except RHDError Data)
    (lazy cascade storeDIG : Bool) (block : Block) :
    Except PyErr (Segment × Block) :=
  let segment0 : Segment :=
    { name := basename filename
      file_origin := filename
      annotations := segment_annotations h
      analogsignals := []
      events := [] }
  if cascade = false then
    .ok (segment0, block)
  else
    match getData lazy decode with
    | .error e => .error e
    | .ok dataOpt =>
      match readSegmentBody filename h storeDIG dataOpt with
      | .error e => .error e
      | .ok r =>
        .ok ({ segment0 with analogsignals := r.1, events := r.2.2 },
             { block with channel_indexes := block.channel_indexes ++ r.2.1 })

/-- RHDIO.read_block: build an empty Block, run read_segment against it, and
append the returned segment. -/
def read_block (filename : String) (h : Header) (decode : Except RHDError Data)
    (lazy cascade storeDIG : Bool) : Except PyErr Block :=
  let bl : Block :=
    { name := basename filename
      file_origin := filename
      channel_indexes := []
      segments := [] }
  match read_segment filename h decode lazy cascade storeDIG bl with
  | .error e => .error e
  | .ok r => .ok { r.2 with segments := r.2.segments ++ [r.1] }

/-- The value held by the LazyList field named _lazy in the source.  Normal
construction stores the lazy flag (a bool); the slice branch of the
subscript method passes the sliced item list positionally into this slot. -/
inductive LVal (α : Type) where
  | boolV : Bool → LVal α
  | listV : List α → LVal α
deriving DecidableEq, Repr

/-- The state of a tools.LazyList: the IO owner (opaque id here), the _lazy
slot, and the backing _data list. -/
structure LazyList (α : Type) where
  ioId : Nat
  lazyFlag : LVal α
  data : List α
deriving DecidableEq, Repr

/-- LazyList.init models the constructor: items defaults to None, in which
case _data starts empty. -/
def LazyList.init {α : Type} (ioId : Nat) (lz : LVal α) (items : Option (List α)) :
    LazyList α :=
  { ioId := ioId, lazyFlag := lz, data := items.getD [] }

/-- Python list slicing l[start:stop] for 0 <= start <= stop <= len l. -/
def pySlice {α : Type} (l : List α) (start stop : Nat) : List α :=
  (l.drop start).take (stop - start)

/-- The slice branch of the LazyList subscript method: item is the sliced
data list, and the source returns LazyList(self._io, item) - two positional
arguments, so item lands in the lazy parameter and items defaults to None. -/
def LazyList.getSlice {α : Type} (xs : LazyList α) (start stop : Nat) : LazyList α :=
  let item := pySlice xs.data start stop
  LazyList.init xs.ioId (LVal.listV item) none

/-- The length of a LazyList delegates to the backing _data list. -/
def LazyList.len {α : Type} (xs : LazyList α) : Nat :=
  xs.data.length

/-- The descending power row 2 ** np.arange(bits_per_char - 1, -1, -1). -/
def descPowers (b : Nat) : List Nat :=
  (List.range b).map (fun j => 2 ^ (b - 1 - j))

/-- The tools.binary_converter function: split the first full
chunks of the 0/1 code vector, take the dot product of each chunk with the
descending powers of two, and narrow each value to a byte with
astype(np.uint8); the result models the byte values of the returned
string. -/
def binary_converter (code : List Nat) (bits_per_char : Nat) : List Nat :=
  let num_vals := code.length / bits_per_char
  (List.range num_vals).map (fun ii =>
    let binvec := (code.drop (ii * bits_per_char)).take bits_per_char
    (List.zipWith (fun p x => p * x) (descPowers bits_per_char) binvec).sum % 256)

/-- The chunk value as the claim words it: the sum over the chunk positions
of bit i times 2 ^ (bits_per_char - 1 - i). -/
def specChunkVal (b : Nat) (bits : List Nat) : Nat :=
  ((List.range b).map (fun i => bits.getD i 0 * 2 ^ (b - 1 - i))).sum

/-- A Python attribute value in the BaseNeo model: a scalar, a text, or a
dict (the _annotations mapping itself is an attribute holding a dict). -/
inductive PyVal where
  | intV : Int → PyVal
  | strV : String → PyVal
  | dictV : List (String × PyVal) → PyVal

/-- The error an attribute lookup can raise: the KeyError coming from the
dict subscript inside BaseNeo's getattr fallback, or the AttributeError a
plain object would raise. -/
inductive AttrErr where
  | keyError : String → AttrErr
  | attributeError : String → AttrErr

/-- The state of a core.baseneo.BaseNeo object: the _annotations dict the
constructor stores from its keyword arguments, plus the other entries of the
instance dict. -/
structure BaseNeo where
  annots : List (String × PyVal)
  others : List (String × PyVal)

/-- The instance dict of a BaseNeo object: the constructor binds
_annotations first, and any later plain attribute assignments follow. -/
def instanceDict (o : BaseNeo) : List (String × PyVal) :=
  ("_annotations", PyVal.dictV o.annots) :: o.others

/-- Python attribute lookup on a BaseNeo object: the normal protocol reads
the instance dict; on a miss the class getattr hook runs, returning the
stored annotation value when the name is an annotation key and otherwise
subscripting the instance dict, which raises KeyError. -/
def pyGetattr (o : BaseNeo) (k : String) : Except AttrErr PyVal :=
  match dictGet (instanceDict o) k with
  | some v => .ok v
  | none =>
    match dictGet o.annots k with
    | some v => .ok v
    | none => .error (.keyError k)

/-- A small concrete RHD header: one amplifier channel, no ADC or aux
channels, one digital-input channel with native order 3. -/
def hdrC : Header :=
  { frequency_parameters := [("amplifier_sample_rate", 30000)]
    notes := []
    amplifier_channels := [⟨0, "A-000"⟩]
    board_adc_channels := []
    aux_input_channels := []
    board_dig_in_channels := [⟨3, "DIN-03"⟩]
    num_board_adc_channels := 0
    num_aux_input_channels := 0
    num_board_dig_in_channels := 1 }

/-- Decoded sample data matching hdrC: three amplifier samples and the
digital bit vector 0,1,1, whose only rising edge is at sample 1. -/
def dataC : Data :=
  { amplifier_data := [[1, 2, 3]]
    board_adc_data := []
    aux_input_data := []
    board_dig_in_data := [[false, true, true]]
    frequency_parameters := [("board_dig_in_sample_rate", 1)] }

/-- An empty Block, as read_block builds before calling read_segment. -/
def blkE : Block :=
  { name := "f.rhd", file_origin := "f.rhd", channel_indexes := [], segments := [] }

/-- The per-event time lists of a successful read_segment result (empty on
error); used to state concrete facts about produced events. -/
def okEventTimes (r : Except PyErr (Segment × Block)) : List (List Rat) :=
  match r with
  | .ok p => p.1.events.map Event.times
  | .error _ => []

/-- The one Event the eager cascading read of hdrC and dataC produces. -/
def evC : Event :=
  { times := [1, 2], name := "Digital Input Events 3", channel_ids := 3,
    channel_names := "DIN-03", file_origin := "f.rhd", sampling_rate := 1 }

/-- The segment produced by the eager cascading read of hdrC and dataC. -/
def segC : Segment :=
  { name := "f.rhd"
    file_origin := "f.rhd"
    annotations := []
    analogsignals := [{ name := "Amplifier", units := .microvolt, t_start := 0,
                        sampling_rate := 30000, data := [[1], [2], [3]],
                        file_origin := "f.rhd" }]
    events := [evC] }

/-- The block produced by the eager cascading read of hdrC and dataC. -/
def blkC : Block :=
  { name := "f.rhd"
    file_origin := "f.rhd"
    channel_indexes := [mkChannelIndex "Amplifier" [⟨0, "A-000"⟩],
                        mkChannelIndex "EventData" [⟨3, "DIN-03"⟩]]
    segments := [] }

/-- The segment the eager read of hdrC and dataC produces with
storeDIG=False: same analog signals, no events. -/
def segC0 : Segment :=
  { segC with events := [] }

/-- The block the eager read of hdrC and dataC produces with storeDIG=False:
only the amplifier channel group, no EventData group. -/
def blkC0 : Block :=
  { name := "f.rhd"
    file_origin := "f.rhd"
    channel_indexes := [mkChannelIndex "Amplifier" [⟨0, "A-000"⟩]]
    segments := [] }

lemma readSegmentBody_none_errors (filename : String) (h : Header) (storeDIG : Bool) :
    ∃ e, readSegmentBody filename h storeDIG none = Except.error e := by
  unfold readSegmentBody
  rcases hA : analogSections filename h none with e | sc
  · exact ⟨e, by simp [hA]⟩
  · rcases hD : digSection filename h storeDIG none with e | de
    · exact ⟨e, by simp [hA, hD]⟩
    · exact ⟨PyErr.nameError "data", by simp [hA, hD]⟩

/-- Claim C1: the claim states that read_segment and read_block succeed with
lazy=true and that first access to each placeholder reproduces the eager
arrays.  In the code the local variable data is only assigned when lazy is
False, yet the digital section reads data and the function ends with del
data, so every cascading lazy call raises NameError and no placeholder
mechanism exists: with lazy=true and cascade=true both entry points error
out for every input. -/
theorem c1_lazy_never_succeeds (filename : String) (h : Header)
    (decode : Except RHDError Data) (storeDIG : Bool) (block : Block) :
    (∃ e, read_segment filename h decode true true storeDIG block = Except.error e) ∧
    (∃ e, read_block filename h decode true true storeDIG = Except.error e) := by
  obtain ⟨e, he⟩ := readSegmentBody_none_errors filename h storeDIG
  refine ⟨⟨e, ?_⟩, ⟨e, ?_⟩⟩
  · simp [read_segment, getData, he]
  · simp [read_block, read_segment, getData, he]

/-- Claim C3: the claim states that slicing a length-10 LazyList at [2:5]
yields a length-3 LazyList aliasing the original slots.  The slice branch of
the subscript method calls the constructor with the sliced items in the lazy
parameter and items left at None, so the result has length 0 and the sliced
data sits in the _lazy slot instead. -/
theorem c3_slice_of_ten_has_length_zero :
    (LazyList.getSlice
      { ioId := 0, lazyFlag := LVal.boolV true, data := List.range 10 } 2 5).len = 0 ∧
    ({ ioId := 0, lazyFlag := LVal.boolV true, data := List.range 10 } : LazyList Nat).len = 10 ∧
    (LazyList.getSlice
      { ioId := 0, lazyFlag := LVal.boolV true, data := List.range 10 } 2 5).lazyFlag
      = LVal.listV [2, 3, 4] ∧
    (0 : Nat) ≠ 3 := by decide

/-- Claim C4: when the underlying sample decode raises, the except clause
prints a message and re-raises the original error, so read_segment and
read_block terminate with exactly that error and return no Segment. -/
theorem c4_decode_error_reraised (filename : String) (h : Header) (storeDIG : Bool)
    (block : Block) (e : RHDError) :
    read_segment filename h (Except.error e) false true storeDIG block
      = Except.error (PyErr.rhd e) ∧
    read_block filename h (Except.error e) false true storeDIG
      = Except.error (PyErr.rhd e) := by
  exact ⟨rfl, rfl⟩

/-- Claim C8, counterexample: with bits_per_char = 9 and nine 1-bits, the
chunk value claimed by the spec is 511, but astype(np.uint8) narrows the
stored byte to 255, so the produced byte value is not the claimed chunk
value. -/
theorem c8_counterexample :
    binary_converter (List.replicate 9 1) 9 = [255] ∧
    specChunkVal 9 (List.replicate 9 1) = 511 ∧ (255 : Nat) ≠ 511 := by decide

/-- Claim C10: on a BaseNeo object, an attribute name found neither in the
instance dict nor among the annotation keys ends in the getattr fallback
subscripting the instance dict, which raises KeyError (not AttributeError);
a name that misses the instance dict but is an annotation key returns the
stored annotation value. -/
theorem c10_getattr_keyerror_and_annotation_hit (o : BaseNeo) (k : String) :
    (dictGet (instanceDict o) k = none → dictGet o.annots k = none →
      pyGetattr o k = Except.error (AttrErr.keyError k)) ∧
    (dictGet (instanceDict o) k = none → ∀ v, dictGet o.annots k = some v →
      pyGetattr o k = Except.ok v) := by
  constructor
  · intro h1 h2
    simp [pyGetattr, h1, h2]
  · intro h1 v h2
    simp [pyGetattr, h1, h2]

/-- Witness for C10 at a concrete object with one annotation. -/
theorem c10_witness :
    pyGetattr { annots := [("hi", PyVal.intV 7)], others := [] } "absent"
      = Except.error (AttrErr.keyError "absent") ∧
    pyGetattr { annots := [("hi", PyVal.intV 7)], others := [] } "hi"
      = Except.ok (PyVal.intV 7) :=
  ⟨(c10_getattr_keyerror_and_annotation_hit
      { annots := [("hi", PyVal.intV 7)], others := [] } "absent").1 rfl rfl,
   (c10_getattr_keyerror_and_annotation_hit
      { annots := [("hi", PyVal.intV 7)], others := [] } "hi").2 rfl _ rfl⟩

lemma read_segment_ok_elim (f : String) (h : Header) (dec : Except RHDError Data)
    (lazy storeDIG : Bool) (blk : Block) (seg : Segment) (blk' : Block)
    (hok : read_segment f h dec lazy true storeDIG blk = Except.ok (seg, blk')) :
    ∃ dataOpt r, getData lazy dec = Except.ok dataOpt ∧
      readSegmentBody f h storeDIG dataOpt = Except.ok r ∧
      seg = { name := basename f, file_origin := f,
              annotations := segment_annotations h,
              analogsignals := r.1, events := r.2.2 } ∧
      blk' = { blk with channel_indexes := blk.channel_indexes ++ r.2.1 } := by
  simp only [read_segment] at hok
  rw [if_neg (by decide : ¬(true = false))] at hok
  split at hok
  · exact absurd hok (by simp)
  · rename_i dataOpt hG
    split at hok
    · exact absurd hok (by simp)
    · rename_i r hB
      simp only [Except.ok.injEq, Prod.mk.injEq] at hok
      obtain ⟨hs, hb⟩ := hok
      subst hs
      subst hb
      exact ⟨dataOpt, r, hG, hB, rfl, rfl⟩

/-- Claim C5: whenever the cascading call returns a segment, the
cascade=False call on the same inputs returns a segment with identical
annotations and no signals or events (the annotation dict is built and
attached before the early return, and nothing later touches it). -/
theorem c5_cascade_false_metadata_only (filename : String) (h : Header)
    (decode : Except RHDError Data) (lazy storeDIG : Bool) (block : Block)
    (seg1 : Segment) (blk1 : Block)
    (h1 : read_segment filename h decode lazy true storeDIG block = Except.ok (seg1, blk1)) :
    ∃ seg0, read_segment filename h decode lazy false storeDIG block = Except.ok (seg0, block) ∧
      seg0.annotations = seg1.annotations ∧
      seg0.analogsignals = [] ∧ seg0.events = [] := by
  obtain ⟨dataOpt, r, hG, hB, hseg, hblk⟩ :=
    read_segment_ok_elim _ _ _ _ _ _ _ _ h1
  subst hseg
  exact ⟨_, rfl, rfl, rfl, rfl⟩

lemma evtimesC : eventTimes 1 [false, true, true] = [1, 2] := by
  have h1 : nonzero [false, true, true] = [1, 2] := by decide
  unfold eventTimes
  rw [h1]
  norm_num

lemma bdeC : buildDigEvents "f.rhd" [⟨3, "DIN-03"⟩] 1 0 [[false, true, true]]
    = Except.ok [evC] := by
  have h : buildDigEvents "f.rhd" [⟨3, "DIN-03"⟩] 1 0 [[false, true, true]]
      = Except.ok [{ evC with times := eventTimes 1 [false, true, true] }] := by
    have hlen : ¬((eventTimes 1 [false, true, true]).length < 1) := by
      rw [evtimesC]; decide
    simp only [buildDigEvents, hlen, if_false, List.get?]
    rfl
  rw [h, evtimesC]
  rfl

lemma runC : read_segment "f.rhd" hdrC (Except.ok dataC) false true true blkE
    = Except.ok (segC, blkC) := by
  have h : read_segment "f.rhd" hdrC (Except.ok dataC) false true true blkE
      = Except.ok ({ segC with
          events := [{ evC with times := eventTimes 1 [false, true, true] }] }, blkC) := by
    have hb : buildDigEvents "f.rhd" [⟨3, "DIN-03"⟩] 1 0 [[false, true, true]]
        = Except.ok [{ evC with times := eventTimes 1 [false, true, true] }] := by
      have hlen : ¬((eventTimes 1 [false, true, true]).length < 1) := by
        rw [evtimesC]; decide
      simp only [buildDigEvents, hlen, if_false, List.get?]
      rfl
    simp only [read_segment, getData, readSegmentBody, analogSections, sectionFor,
      optSection, digSection, digStore, hb]
    rfl
  rw [h, evtimesC]
  rfl

/-- Witness for C5 at the concrete eager read of hdrC and dataC. -/
theorem c5_witness :
    ∃ seg0, read_segment "f.rhd" hdrC (Except.ok dataC) false false true blkE
        = Except.ok (seg0, blkE) ∧
      seg0.annotations = segC.annotations ∧
      seg0.analogsignals = [] ∧ seg0.events = [] :=
  c5_cascade_false_metadata_only "f.rhd" hdrC (Except.ok dataC) false true blkE
    segC blkC runC

lemma nonzero_pairwise (v : List Bool) : (nonzero v).Pairwise (· < ·) :=
  (List.pairwise_lt_range v.length).filter _

lemma eventTimes_pairwise (rate : Rat) (v : List Bool) (hr : 0 < rate) :
    (eventTimes rate v).Pairwise (· < ·) := by
  unfold eventTimes
  exact List.Pairwise.map (fun i : Nat => (i : Rat) / rate)
    (fun a b hab => (div_lt_div_iff_of_pos_right hr).mpr (by exact_mod_cast hab))
    (nonzero_pairwise v)

/-- Claim C2, counterexample: on the bit vector 0,1,1 at 1 Hz the code emits
the times of all on samples, 1 and 2, while the only rising edge is at
sample 1; so an on sample that is not a 0-to-1 transition does contribute a
timestamp, contrary to the claim. -/
theorem c2_counterexample :
    okEventTimes (read_segment "f.rhd" hdrC (Except.ok dataC) false true true blkE)
      = [[1, 2]] ∧
    dataC.board_dig_in_data = [[false, true, true]] ∧
    risingEdges [false, true, true] = [1] ∧
    ([[(1 : Rat), 2]] ≠ [[(1 : Rat)]]) := by
  refine ⟨?_, rfl, by decide, by decide⟩
  rw [runC]
  rfl

/-- Claim C2 as amended, bound per channel: the digital loop emits events in
channel order, one for each channel with at least one on sample, and the
k-th event's times are exactly the on-sample indices of the k-th surviving
channel's own bit vector divided by the digital sampling rate; for a
positive rate every produced time list is strictly increasing. -/
theorem c2_amended_times_are_all_on_samples (filename : String) (chs : List Channel)
    (rate : Rat) (ii : Nat) (digData : List (List Bool)) (evs : List Event)
    (hok : buildDigEvents filename chs rate ii digData = Except.ok evs) :
    evs.map Event.times
      = (digData.filter (fun w => !(nonzero w).isEmpty)).map (eventTimes rate) ∧
    (0 < rate → ∀ ev ∈ evs, ev.times.Pairwise (· < ·)) := by
  induction digData generalizing ii evs with
  | nil =>
    simp only [buildDigEvents] at hok
    cases hok
    exact ⟨rfl, fun _ ev hev => absurd hev (by simp)⟩
  | cons v rest ih =>
    simp only [buildDigEvents] at hok
    by_cases hlt : (eventTimes rate v).length < 1
    · rw [if_pos hlt] at hok
      have hnil : nonzero v = [] := by
        unfold eventTimes at hlt
        rw [List.length_map] at hlt
        exact List.length_eq_zero.mp (by omega)
      have hfil : List.filter (fun w => !(nonzero w).isEmpty) (v :: rest)
          = List.filter (fun w => !(nonzero w).isEmpty) rest := by
        rw [List.filter_cons]
        simp [hnil]
      rw [hfil]
      exact ih _ _ hok
    · rw [if_neg hlt] at hok
      have hne : nonzero v ≠ [] := by
        intro hcon
        apply hlt
        unfold eventTimes
        rw [hcon]
        simp
      have hfil : List.filter (fun w => !(nonzero w).isEmpty) (v :: rest)
          = v :: List.filter (fun w => !(nonzero w).isEmpty) rest := by
        rw [List.filter_cons]
        cases hnv : nonzero v with
        | nil => exact absurd hnv hne
        | cons a l => simp [hnv]
      rw [hfil]
      split at hok
      · exact absurd hok (by simp)
      · split at hok
        · exact absurd hok (by simp)
        · rename_i ch hch evs2 hrec
          cases hok
          obtain ⟨ih1, ih2⟩ := ih _ _ hrec
          constructor
          · simp only [List.map_cons]
            rw [ih1]
          · intro hr ev hev
            rcases List.mem_cons.mp hev with hev | hev
            · subst hev
              exact eventTimes_pairwise rate v hr
            · exact ih2 hr ev hev

lemma dictGet_dictSet_self {α : Type} (d : List (String × α)) (k : String) (v : α) :
    dictGet (dictSet d k v) k = some v := by
  induction d with
  | nil => simp [dictGet, dictSet]
  | cons p rest ih =>
    by_cases hp : p.1 == k
    · simp [dictGet, dictSet, hp]
    · simpa [dictGet, dictSet, hp] using ih

lemma dictGet_dictSet_ne {α : Type} (d : List (String × α)) (k k' : String) (v : α)
    (hne : k' ≠ k) : dictGet (dictSet d k v) k' = dictGet d k' := by
  induction d with
  | nil => simp [dictGet, dictSet, Ne.symm hne]
  | cons p rest ih =>
    by_cases hp : p.1 == k
    · have hpk : p.1 = k := by simpa using hp
      simp [dictGet, dictSet, hp, hpk, Ne.symm hne]
    · by_cases hp' : p.1 == k'
      · simp [dictGet, dictSet, hp, hp']
      · simpa [dictGet, dictSet, hp, hp'] using ih

lemma dictGet_eq_none_of_not_mem {α : Type} (l : List (String × α)) (k : String)
    (hk : k ∉ l.map Prod.fst) : dictGet l k = none := by
  induction l with
  | nil => rfl
  | cons p rest ih =>
    simp only [List.map_cons, List.mem_cons, not_or] at hk
    have hp : ¬(p.1 == k) := by simpa using Ne.symm hk.1
    simpa [dictGet, hp] using ih hk.2

lemma dictGet_foldl_dictSet (notes : List (String × String)) (k : String)
    (hn : (notes.map Prod.fst).Nodup) :
    ∀ base : List (String × AnnValue),
      dictGet (notes.foldl (fun acc p => dictSet acc p.1 (AnnValue.strV p.2)) base) k =
        match dictGet notes k with
        | some s => some (AnnValue.strV s)
        | none => dictGet base k := by
  induction notes with
  | nil => intro base; rfl
  | cons q rest ih =>
    intro base
    have hn2 : (q.1 :: rest.map Prod.fst).Nodup := by simpa using hn
    obtain ⟨hq, hn'⟩ := List.nodup_cons.mp hn2
    simp only [List.foldl_cons]
    rw [ih hn' (dictSet base q.1 (AnnValue.strV q.2))]
    by_cases hk : q.1 == k
    · have hqk : q.1 = k := by simpa using hk
      have hrest : dictGet rest k = none := by
        refine dictGet_eq_none_of_not_mem rest k ?_
        rw [← hqk]
        exact hq
      rw [hrest]
      have hhead : dictGet (q :: rest) k = some q.2 := by simp [dictGet, hk]
      rw [hhead]
      rw [← hqk]
      exact dictGet_dictSet_self base q.1 (AnnValue.strV q.2)
    · have hqk : k ≠ q.1 := fun hcon => hk (by simp [hcon])
      have hhead : dictGet (q :: rest) k = dictGet rest k := by simp [dictGet, hk]
      rw [hhead]
      cases hr : dictGet rest k with
      | some s => rfl
      | none => exact dictGet_dictSet_ne base q.1 k (AnnValue.strV q.2) hqk

lemma dictGet_map_ratV (l : List (String × Rat)) (k : String) :
    dictGet (l.map (fun p => (p.1, AnnValue.ratV p.2))) k
      = (dictGet l k).map AnnValue.ratV := by
  induction l with
  | nil => rfl
  | cons p rest ih =>
    by_cases hp : p.1 == k
    · simp [dictGet, hp]
    · simpa [dictGet, hp] using ih

lemma dictGet_filter_suffix {α : Type} (l : List (String × α)) (k suf : String) :
    dictGet (l.filter (fun p => !pyEndsWith p.1 suf)) k
      = if pyEndsWith k suf then none else dictGet l k := by
  induction l with
  | nil => by_cases hk : pyEndsWith k suf <;> simp [dictGet, hk]
  | cons p rest ih =>
    rw [List.filter_cons]
    by_cases hP : pyEndsWith p.1 suf
    · rw [if_neg (by simp [hP])]
      rw [ih]
      by_cases hp : p.1 == k
      · have hpk : p.1 = k := by simpa using hp
        subst hpk
        rw [if_pos hP, if_pos hP]
      · by_cases hk2 : pyEndsWith k suf
        · rw [if_pos hk2, if_pos hk2]
        · rw [if_neg hk2, if_neg hk2]
          simp [dictGet, hp]
    · rw [if_pos (by simp [hP])]
      by_cases hp : p.1 == k
      · have hpk : p.1 = k := by simpa using hp
        subst hpk
        rw [if_neg hP]
        simp [dictGet, hp]
      · have hL : dictGet (p :: List.filter (fun q => !pyEndsWith q.1 suf) rest) k
            = dictGet (List.filter (fun q => !pyEndsWith q.1 suf) rest) k := by
          simp [dictGet, hp]
        rw [hL, ih]
        by_cases hk2 : pyEndsWith k suf
        · rw [if_pos hk2, if_pos hk2]
        · rw [if_neg hk2, if_neg hk2]
          simp [dictGet, hp]

/-- Claim C6, counterexample: a header note whose name ends in the
sampling-rate suffix is still annotated, because only frequency-parameter
keys are filtered; so a key ending in the suffix can appear among the
annotations, contrary to the claim. -/
theorem c6_counterexample :
    dictGet (segment_annotations
      { frequency_parameters := [("amplifier_sample_rate", 30000)]
        notes := [("note_sample_rate", "x")]
        amplifier_channels := []
        board_adc_channels := []
        aux_input_channels := []
        board_dig_in_channels := []
        num_board_adc_channels := 0
        num_aux_input_channels := 0
        num_board_dig_in_channels := 0 }) "note_sample_rate"
      = some (AnnValue.strV "x") ∧
    pyEndsWith "note_sample_rate" "sample_rate" = true := by decide

/-- Claim C6 as amended: an annotation lookup returns the note value when the
key is a note name (notes are assigned last and overwrite), otherwise the
frequency-parameter value provided the key does not end in "sample_rate";
only frequency-parameter keys are filtered by the suffix, a note name ending
in the suffix is still annotated. -/
theorem c6_amended_annotation_lookup (h : Header)
    (hn : (h.notes.map Prod.fst).Nodup) (k : String) :
    dictGet (segment_annotations h) k =
      match dictGet h.notes k with
      | some s => some (AnnValue.strV s)
      | none =>
        match dictGet h.frequency_parameters k with
        | some r => if pyEndsWith k "sample_rate" then none else some (AnnValue.ratV r)
        | none => none := by
  unfold segment_annotations
  rw [dictGet_foldl_dictSet h.notes k hn]
  cases hnk : dictGet h.notes k with
  | some s => rfl
  | none =>
    rw [dictGet_map_ratV, dictGet_filter_suffix]
    cases hfk : dictGet h.frequency_parameters k with
    | some r => by_cases hs : pyEndsWith k "sample_rate" <;> simp [hs]
    | none => by_cases hs : pyEndsWith k "sample_rate" <;> simp [hs]

/-- Witness for the amended C6: on hdrC the filtered sampling-rate key is
absent from the annotations. -/
theorem c6_amended_witness :
    dictGet (segment_annotations hdrC) "amplifier_sample_rate" = none :=
  (c6_amended_annotation_lookup hdrC (by decide) "amplifier_sample_rate").trans
    (by decide)

/-- Witness for the amended C2 at the concrete channel 0,1,1 read at 1 Hz. -/
theorem c2_amended_witness :
    ([evC].map Event.times
      = (List.filter (fun w => !(nonzero w).isEmpty) [[false, true, true]]).map
          (eventTimes 1)) ∧
    evC.times.Pairwise (· < ·) :=
  ⟨(c2_amended_times_are_all_on_samples "f.rhd" [⟨3, "DIN-03"⟩] 1 0
      [[false, true, true]] [evC] bdeC).1,
   (c2_amended_times_are_all_on_samples "f.rhd" [⟨3, "DIN-03"⟩] 1 0
      [[false, true, true]] [evC] bdeC).2 (by norm_num) evC (List.mem_cons_self _ _)⟩

lemma nonzero_eq_nil_of_all_false (v : List Bool) (hv : ∀ b ∈ v, b = false) :
    nonzero v = [] := by
  unfold nonzero
  rw [List.filter_eq_nil_iff]
  intro i hi
  rw [List.mem_range] at hi
  simp only [List.getD_eq_getElem?_getD]
  rw [List.getElem?_eq_getElem hi, Option.getD_some]
  simp [hv _ (List.getElem_mem hi)]

lemma mem_nonzero_of_mem_risingEdges (v : List Bool) (i : Nat)
    (hi : i ∈ risingEdges v) : i ∈ nonzero v := by
  unfold risingEdges at hi
  unfold nonzero
  rw [List.mem_filter] at hi ⊢
  refine ⟨hi.1, ?_⟩
  have h2 := hi.2
  unfold isRisingEdge at h2
  exact (Bool.and_eq_true_iff.mp h2).1

/-- Claim C7: in the digital loop a channel whose bit vector is all zero
yields no on-sample times and is skipped, contributing no Event; a channel
with exactly one rising edge has at least one on sample, so exactly one
Event is emitted for it on top of the remaining channels' events. -/
theorem c7_zero_and_one_edge_channels (filename : String) (chs : List Channel)
    (rate : Rat) (ii : Nat) (v : List Bool) (rest : List (List Bool)) (evs : List Event)
    (hok : buildDigEvents filename chs rate ii (v :: rest) = Except.ok evs) :
    ((∀ b ∈ v, b = false) → buildDigEvents filename chs rate (ii + 1) rest = Except.ok evs) ∧
    ((risingEdges v).length = 1 →
      ∃ ev evs2, evs = ev :: evs2 ∧ ev.times ≠ [] ∧
        buildDigEvents filename chs rate (ii + 1) rest = Except.ok evs2) := by
  constructor
  · intro hv
    have hz : eventTimes rate v = [] := by
      unfold eventTimes
      rw [nonzero_eq_nil_of_all_false v hv]
      rfl
    simpa only [buildDigEvents, hz, List.length_nil, Nat.zero_lt_one, if_true] using hok
  · intro h1
    have hne : nonzero v ≠ [] := by
      have hcne : risingEdges v ≠ [] := by
        intro hcon
        rw [hcon] at h1
        simp at h1
      obtain ⟨i, hi⟩ := List.exists_mem_of_ne_nil _ hcne
      intro hcon
      have hmem := mem_nonzero_of_mem_risingEdges v i hi
      rw [hcon] at hmem
      simp at hmem
    have hlen2 : ¬((eventTimes rate v).length < 1) := by
      unfold eventTimes
      rw [List.length_map]
      have hpos : 0 < (nonzero v).length := List.length_pos.mpr hne
      omega
    simp only [buildDigEvents, hlen2, if_false] at hok
    split at hok
    · exact absurd hok (by simp)
    · split at hok
      · exact absurd hok (by simp)
      · rename_i ch hch evs2 hrec
        cases hok
        refine ⟨_, evs2, rfl, ?_, hrec⟩
        intro hcon
        have hcon2 : eventTimes rate v = [] := hcon
        apply hlen2
        rw [hcon2]
        decide

lemma bdeC2 : buildDigEvents "f.rhd" [⟨0, "DIN-00"⟩, ⟨3, "DIN-03"⟩] 1 0
    [[false, false, false], [false, true, true]] = Except.ok [evC] := by
  have h : buildDigEvents "f.rhd" [⟨0, "DIN-00"⟩, ⟨3, "DIN-03"⟩] 1 0
      [[false, false, false], [false, true, true]]
      = Except.ok [{ evC with times := eventTimes 1 [false, true, true] }] := by
    have hz : (eventTimes 1 [false, false, false]).length < 1 := by
      have hnz : nonzero [false, false, false] = [] := by decide
      unfold eventTimes
      rw [hnz]
      decide
    have hlen : ¬((eventTimes 1 [false, true, true]).length < 1) := by
      rw [evtimesC]; decide
    simp only [buildDigEvents, hz, if_true, hlen, if_false, List.get?]
    rfl
  rw [h, evtimesC]
  rfl

/-- Witness for C7: the all-zero first channel of a two-channel file is
skipped, so the result is exactly the second channel's single event. -/
theorem c7_witness :
    buildDigEvents "f.rhd" [⟨0, "DIN-00"⟩, ⟨3, "DIN-03"⟩] 1 1 [[false, true, true]]
      = Except.ok [evC] :=
  (c7_zero_and_one_edge_channels "f.rhd" [⟨0, "DIN-00"⟩, ⟨3, "DIN-03"⟩] 1 0
    [false, false, false] [[false, true, true]] [evC] bdeC2).1 (by decide)

lemma descPowers_succ (b : Nat) : descPowers (b + 1) = 2 ^ b :: descPowers b := by
  unfold descPowers
  rw [List.range_succ_eq_map]
  simp only [List.map_cons, List.map_map]
  have h0 : b + 1 - 1 - 0 = b := by omega
  rw [h0]
  have hmap : List.map ((fun j => 2 ^ (b + 1 - 1 - j)) ∘ Nat.succ) (List.range b)
      = List.map (fun j => 2 ^ (b - 1 - j)) (List.range b) := by
    apply List.map_congr_left
    intro j hj
    simp only [Function.comp_apply, Nat.succ_eq_add_one]
    congr 1
    omega
  rw [hmap]

lemma zip_descPowers_sum (bits : List Nat) : ∀ b, bits.length = b →
    (List.zipWith (fun p x => p * x) (descPowers b) bits).sum = specChunkVal b bits := by
  induction bits with
  | nil =>
    intro b hb
    subst hb
    simp [descPowers, specChunkVal]
  | cons x xs ih =>
    intro b hb
    subst hb
    rw [List.length_cons, descPowers_succ]
    rw [List.zipWith_cons_cons, List.sum_cons]
    rw [ih xs.length rfl]
    unfold specChunkVal
    rw [List.range_succ_eq_map]
    simp only [List.map_cons, List.map_map, List.sum_cons, List.getD_cons_zero]
    have htail : List.map
          ((fun i => (x :: xs).getD i 0 * 2 ^ (xs.length + 1 - 1 - i)) ∘ Nat.succ)
          (List.range xs.length)
        = List.map (fun i => xs.getD i 0 * 2 ^ (xs.length - 1 - i))
          (List.range xs.length) := by
      apply List.map_congr_left
      intro j hj
      have he : xs.length + 1 - 1 - (j + 1) = xs.length - 1 - j := by omega
      simp only [Function.comp_apply, Nat.succ_eq_add_one, List.getD_cons_succ, he]
    rw [htail]
    have hexp : xs.length + 1 - 1 - 0 = xs.length := by omega
    rw [hexp]
    ring

/-- Claim C8 as amended: binary_converter produces one byte per full
bits_per_char chunk of the code vector, and each byte is the MSB-first chunk
value reduced modulo 256 (the astype(np.uint8) narrowing); in particular it
equals the chunk value itself whenever bits_per_char is at most 8 and the
input bits are 0/1. -/
theorem c8_amended_bytes_are_chunk_mod_256 (code : List Nat) (b : Nat) (hb : 0 < b) :
    (binary_converter code b).length = code.length / b ∧
    ∀ ii, ii < code.length / b →
      (binary_converter code b).get? ii
        = some (specChunkVal b ((code.drop (ii * b)).take b) % 256) := by
  constructor
  · simp [binary_converter]
  · intro ii hii
    unfold binary_converter
    rw [List.get?_map, List.get?_range hii]
    simp only [Option.map_some']
    have hmul : (ii + 1) * b ≤ code.length := by
      calc (ii + 1) * b ≤ (code.length / b) * b := Nat.mul_le_mul_right b hii
        _ ≤ code.length := Nat.div_mul_le_self code.length b
    have hlen : ((code.drop (ii * b)).take b).length = b := by
      rw [List.length_take, List.length_drop]
      rw [Nat.succ_mul] at hmul
      omega
    rw [zip_descPowers_sum _ b hlen]

lemma digSection_false (f : String) (h : Header) (dOpt : Option Data) :
    digSection f h false dOpt = Except.ok ([], []) := by
  unfold digSection
  split <;> rfl

lemma sectionFor_name (f : String) (h : Header) (dOpt : Option Data)
    (sn cn : String) (u : SignalUnits) (chs : List Channel) (rk : String)
    (fld : Data → List (List Rat)) (p : AnalogSignal × ChannelIndex)
    (hok : sectionFor f h dOpt sn cn u chs rk fld = Except.ok p) :
    p.2.name = cn := by
  unfold sectionFor at hok
  split at hok
  · exact absurd hok (by simp)
  · cases hok
    rfl

lemma optSection_names (cond : Prop) [Decidable cond]
    (s : Except PyErr (AnalogSignal × ChannelIndex)) (nm : String)
    (p : List AnalogSignal × List ChannelIndex)
    (hok : optSection cond s = Except.ok p)
    (hs : ∀ q, s = Except.ok q → q.2.name = nm) :
    ∀ c ∈ p.2, c.name = nm := by
  unfold optSection at hok
  by_cases hc : cond
  · rw [if_pos hc] at hok
    cases hS : s with
    | error e =>
      rw [hS] at hok
      exact absurd hok (by simp)
    | ok q =>
      rw [hS] at hok
      have hok2 : Except.ok ([q.1], [q.2]) = Except.ok p := hok
      cases hok2
      intro c hcm
      rw [List.mem_singleton.mp hcm]
      exact hs q hS
  · rw [if_neg hc] at hok
    cases hok
    intro c hcm
    simp at hcm

lemma analogSections_names (f : String) (h : Header) (dOpt : Option Data)
    (sc : List AnalogSignal × List ChannelIndex)
    (hok : analogSections f h dOpt = Except.ok sc) :
    ∀ c ∈ sc.2, c.name = "Amplifier" ∨ c.name = "ADC" ∨ c.name = "AuxData" := by
  unfold analogSections at hok
  split at hok
  · exact absurd hok (by simp)
  · rename_i amp hamp
    split at hok
    · exact absurd hok (by simp)
    · rename_i adc hadc
      split at hok
      · exact absurd hok (by simp)
      · rename_i aux haux
        cases hok
        intro c hc
        rcases List.mem_cons.mp hc with hc | hc
        · left
          rw [hc]
          exact sectionFor_name _ _ _ _ _ _ _ _ _ _ hamp
        · rcases List.mem_append.mp hc with hc | hc
          · right; left
            exact optSection_names _ _ _ _ hadc
              (fun q hq => sectionFor_name _ _ _ _ _ _ _ _ _ _ hq) c hc
          · right; right
            exact optSection_names _ _ _ _ haux
              (fun q hq => sectionFor_name _ _ _ _ _ _ _ _ _ _ hq) c hc

lemma digSection_true_shape_pos (f : String) (h : Header) (dOpt : Option Data)
    (p : List ChannelIndex × List Event)
    (hdig : 0 < h.num_board_dig_in_channels)
    (hok : digSection f h true dOpt = Except.ok p) :
    p.1 = [mkChannelIndex "EventData" h.board_dig_in_channels] := by
  unfold digSection at hok
  rw [if_pos hdig, if_pos rfl] at hok
  cases dOpt with
  | none => simp at hok
  | some d =>
    have hok2 : digStore f h d = Except.ok p := hok
    unfold digStore at hok2
    cases hr : dictGet d.frequency_parameters "board_dig_in_sample_rate" with
    | none =>
      rw [hr] at hok2
      simp at hok2
    | some rate =>
      rw [hr] at hok2
      have hok3 : (match buildDigEvents f h.board_dig_in_channels rate 0
            d.board_dig_in_data with
          | Except.error e => Except.error e
          | Except.ok evs =>
            Except.ok ([mkChannelIndex "EventData" h.board_dig_in_channels], evs))
          = Except.ok p := hok2
      cases hbe : buildDigEvents f h.board_dig_in_channels rate 0 d.board_dig_in_data with
      | error e =>
        rw [hbe] at hok3
        simp at hok3
      | ok evs =>
        rw [hbe] at hok3
        have hok4 : Except.ok ([mkChannelIndex "EventData" h.board_dig_in_channels], evs)
            = Except.ok p := hok3
        cases hok4
        rfl

/-- Claim C9: with storeDIG=False on a file declaring at least one
digital-input channel, the returned segment holds no Event and the block
gets no EventData channel group at all, while a storeDIG=True call on the
same inputs produces the identical analog signals and annotations plus
exactly the EventData group appended. -/
theorem c9_storeDIG_false_drops_event_group (filename : String) (h : Header)
    (decode : Except RHDError Data) (block : Block) (seg0 : Segment) (blk0 : Block)
    (hdig : 0 < h.num_board_dig_in_channels)
    (hblk : block.channel_indexes = [])
    (h0 : read_segment filename h decode false true false block = Except.ok (seg0, blk0)) :
    seg0.events = [] ∧
    (∀ c ∈ blk0.channel_indexes, c.name ≠ "EventData") ∧
    (∀ seg1 blk1,
      read_segment filename h decode false true true block = Except.ok (seg1, blk1) →
        seg1.analogsignals = seg0.analogsignals ∧
        seg1.annotations = seg0.annotations ∧
        blk1.channel_indexes
          = blk0.channel_indexes ++ [mkChannelIndex "EventData" h.board_dig_in_channels]) := by
  obtain ⟨dataOpt, r, hG, hB, hseg, hblk'⟩ := read_segment_ok_elim _ _ _ _ _ _ _ _ h0
  unfold readSegmentBody at hB
  cases hA : analogSections filename h dataOpt with
  | error e =>
    rw [hA] at hB
    exact absurd hB (by simp)
  | ok sc =>
    rw [hA, digSection_false filename h dataOpt] at hB
    cases hd : dataOpt with
    | none =>
      rw [hd] at hB
      simp at hB
    | some d =>
      subst hd
      have hB2 : Except.ok (sc.1, sc.2 ++ ([] : List ChannelIndex), ([] : List Event))
          = Except.ok r := hB
      cases hB2
      subst hseg
      subst hblk'
      refine ⟨rfl, ?_, ?_⟩
      · intro c hc
        rw [hblk] at hc
        simp only [List.nil_append, List.append_nil] at hc
        rcases analogSections_names _ _ _ _ hA c hc with hn | hn | hn <;>
          rw [hn] <;> decide
      · intro seg1 blk1 h1
        obtain ⟨dataOpt1, r1, hG1, hB1, hseg1, hblk1⟩ :=
          read_segment_ok_elim _ _ _ _ _ _ _ _ h1
        rw [hG] at hG1
        injection hG1 with hh
        subst hh
        unfold readSegmentBody at hB1
        rw [hA] at hB1
        cases hD : digSection filename h true (some d) with
        | error e =>
          rw [hD] at hB1
          exact absurd hB1 (by simp)
        | ok de =>
          rw [hD] at hB1
          have hB3 : Except.ok (sc.1, sc.2 ++ de.1, de.2) = Except.ok r1 := hB1
          cases hB3
          subst hseg1
          subst hblk1
          have hshape := digSection_true_shape_pos _ _ _ _ hdig hD
          refine ⟨rfl, rfl, ?_⟩
          rw [hblk, hshape]
          simp

/-- Witness for C9 at the concrete eager reads of hdrC and dataC with and
without storeDIG. -/
theorem c9_witness :
    segC0.events = [] ∧
    segC.analogsignals = segC0.analogsignals ∧
    blkC.channel_indexes
      = blkC0.channel_indexes ++ [mkChannelIndex "EventData" hdrC.board_dig_in_channels] :=
  ⟨(c9_storeDIG_false_drops_event_group "f.rhd" hdrC (Except.ok dataC) blkE segC0 blkC0
      (by decide) rfl rfl).1,
   ((c9_storeDIG_false_drops_event_group "f.rhd" hdrC (Except.ok dataC) blkE segC0 blkC0
      (by decide) rfl rfl).2.2 segC blkC runC).1,
   ((c9_storeDIG_false_drops_event_group "f.rhd" hdrC (Except.ok dataC) blkE segC0 blkC0
      (by decide) rfl rfl).2.2 segC blkC runC).2.2⟩

/-- Witness for the amended C8 on the 4-bit code 1,0,1,1 in 2-bit chunks. -/
theorem c8_amended_witness :
    (binary_converter [1, 0, 1, 1] 2).length = [1, 0, 1, 1].length / 2 ∧
    (binary_converter [1, 0, 1, 1] 2).get? 0
      = some (specChunkVal 2 (([1, 0, 1, 1].drop (0 * 2)).take 2) % 256) :=
  ⟨(c8_amended_bytes_are_chunk_mod_256 [1, 0, 1, 1] 2 (by decide)).1,
   (c8_amended_bytes_are_chunk_mod_256 [1, 0, 1, 1] 2 (by decide)).2 0 (by decide)⟩

end Neo
